import Mathlib

/-!
Verification development for the `syla` process-supervision subsystem.

This file gives a shallow embedding, in Lean 4, of the core of the
repository's CLI service layer:

* `src/cli/src/services/log_streamer.rs` — log parser, log watcher, log streamer;
* `src/cli/src/services/process_manager.rs` — process supervisor;
* `src/cli/src/services/health_monitor.rs` — standalone health monitor.

Pure Rust functions become Lean functions; stateful methods become explicit
state-passing functions on a registry type; fallible operations return
`Except`.  External effects (spawning a child, an HTTP probe, `try_wait`)
are passed in as explicit arguments describing the environment's outcome,
so every definition is executable and every concrete scenario can be
evaluated by the kernel.
-/

/-! ## Generic association-list helpers

Rust `HashMap<String, V>` operations used by the source (`get`, `get_mut`,
`insert`) are modelled on association lists: `lookup` finds the entry for a
key, `insert` replaces the value in place (or appends a fresh entry), which
matches `HashMap::insert` up to iteration order. -/

def alistLookup {α : Type} : List (String × α) → String → Option α
  | [], _ => none
  | (k, v) :: rest, key => if k = key then some v else alistLookup rest key

def alistInsert {α : Type} : List (String × α) → String → α → List (String × α)
  | [], key, v => [(key, v)]
  | (k, w) :: rest, key, v =>
    if k = key then (k, v) :: rest else (k, w) :: alistInsert rest key v

theorem alistLookup_insert {α : Type} (l : List (String × α)) (k k' : String) (v : α) :
    alistLookup (alistInsert l k v) k' = if k = k' then some v else alistLookup l k' := by
  induction l with
  | nil => simp [alistInsert, alistLookup]
  | cons hd tl ih =>
    obtain ⟨hk, hv⟩ := hd
    by_cases h1 : hk = k
    · subst h1
      by_cases h2 : hk = k' <;> simp [alistInsert, alistLookup, h2]
    · by_cases h2 : hk = k'
      · subst h2
        have : ¬ k = hk := fun h => h1 h.symm
        simp [alistInsert, alistLookup, h1, this]
      · simp [alistInsert, alistLookup, h1, h2, ih]

/-! ## Character-list string helpers

The Rust source calls `str::trim`, `String::contains`, `str::to_uppercase`.
These are modelled on `List Char` (a `String` is embedded via `String.data`)
restricted to the behaviour Rust exhibits on the inputs at issue; Rust's
Unicode whitespace class is modelled by `Char.isWhitespace`. -/

def rsTrim (cs : List Char) : List Char :=
  ((cs.dropWhile Char.isWhitespace).reverse.dropWhile Char.isWhitespace).reverse

/-- Tests whether the first list occurs at the start of the second. -/
def beginsWith : List Char → List Char → Bool
  | [], _ => true
  | _ :: _, [] => false
  | n :: ns, c :: cs => n == c && beginsWith ns cs

/-- Models Rust `String::contains(&str)`: substring containment. -/
def containsSub : List Char → List Char → Bool
  | [], need => beginsWith need []
  | c :: t, need => beginsWith need (c :: t) || containsSub t need

theorem beginsWith_iff (need cs : List Char) :
    beginsWith need cs = true ↔ ∃ t, cs = need ++ t := by
  induction need generalizing cs with
  | nil => simp [beginsWith]
  | cons n ns ih =>
    cases cs with
    | nil => simp [beginsWith]
    | cons c t =>
      simp only [beginsWith, Bool.and_eq_true, beq_iff_eq, ih, List.cons_append,
        List.cons.injEq]
      constructor
      · rintro ⟨h1, t', h2⟩
        exact ⟨t', h1.symm, h2⟩
      · rintro ⟨t', h1, h2⟩
        exact ⟨h1.symm, t', h2⟩

theorem containsSub_iff (hay need : List Char) :
    containsSub hay need = true ↔ ∃ pre post, hay = pre ++ need ++ post := by
  induction hay with
  | nil =>
    simp only [containsSub, beginsWith_iff]
    constructor
    · rintro ⟨t, h⟩
      exact ⟨[], t, by simpa using h⟩
    · rintro ⟨pre, post, h⟩
      exact ⟨post, by
        have hpre : pre = [] := by
          cases pre with
          | nil => rfl
          | cons a b => simp at h
        subst hpre; simpa using h⟩
  | cons c t ih =>
    simp only [containsSub, Bool.or_eq_true, beginsWith_iff, ih]
    constructor
    · rintro (⟨t', h⟩ | ⟨pre, post, h⟩)
      · exact ⟨[], t', by simpa using h⟩
      · exact ⟨c :: pre, post, by simp [h]⟩
    · rintro ⟨pre, post, h⟩
      cases pre with
      | nil => exact Or.inl ⟨post, by simpa using h⟩
      | cons p ps =>
        right
        have h' : c = p ∧ t = ps ++ need ++ post := by simpa using h
        exact ⟨ps, post, h'.2⟩

/-! ## JSON values and a parser modelling `serde_json::from_str`

`LogParser::parse_line` first tries `serde_json::from_str::<serde_json::Value>`.
The model below implements the JSON grammar on `List Char` with explicit fuel
(recursion depth is bounded by the input length, so the fuel never runs out on
inputs the grammar accepts).  Restrictions relative to `serde_json`, none of
which is exercised by any claim input: numbers are kept as their literal text
(no numeric semantics), `\u` escapes and the `\b`/`\f` escapes are rejected,
and object fields are kept in source order rather than `serde_json`'s sorted
`BTreeMap` order (no claim compares multi-field maps). -/

inductive Json where
  | null
  | boolean (b : Bool)
  | num (lit : String)
  | str (s : String)
  | arr (elems : List Json)
  | obj (fields : List (String × Json))

def Json.isObj : Json → Bool
  | .obj _ => true
  | _ => false

def Json.asObj : Json → Option (List (String × Json))
  | .obj f => some f
  | _ => none

def Json.asStr : Json → Option String
  | .str s => some s
  | _ => none

def lbraceC : Char := Char.ofNat 123

def rbraceC : Char := Char.ofNat 125

def jsonWs (c : Char) : Bool := c = ' ' || c = '\t' || c = '\n' || c = '\r'

def skipWs : List Char → List Char
  | [] => []
  | c :: cs => if jsonWs c then skipWs cs else c :: cs

def escChar (e : Char) : Option Char :=
  if e = '"' then some '"'
  else if e = '\\' then some '\\'
  else if e = '/' then some '/'
  else if e = 'n' then some '\n'
  else if e = 't' then some '\t'
  else if e = 'r' then some '\r'
  else none

/-- Parses the body of a JSON string literal after the opening quote, returning
the decoded characters and the input remaining after the closing quote. -/
def parseStringBody : Nat → List Char → Option (List Char × List Char)
  | 0, _ => none
  | _ + 1, [] => none
  | fuel + 1, c :: cs =>
    if c = '"' then some ([], cs)
    else if c = '\\' then
      match cs with
      | [] => none
      | e :: cs2 =>
        match escChar e with
        | some d => (parseStringBody fuel cs2).map (fun p => (d :: p.1, p.2))
        | none => none
    else if c.toNat < 32 then none
    else (parseStringBody fuel cs).map (fun p => (c :: p.1, p.2))

def spanDigits (cs : List Char) : List Char × List Char :=
  (cs.takeWhile Char.isDigit, cs.dropWhile Char.isDigit)

def parseExpPart (lit : List Char) (cs : List Char) : Option (List Char × List Char) :=
  match cs with
  | e :: r =>
    if e = 'e' || e = 'E' then
      let sr : List Char × List Char :=
        match r with
        | s :: r2 => if s = '+' || s = '-' then ([s], r2) else ([], s :: r2)
        | [] => ([], [])
      let ds := spanDigits sr.2
      if ds.1 = [] then none else some (lit ++ e :: sr.1 ++ ds.1, ds.2)
    else some (lit, cs)
  | [] => some (lit, cs)

def parseFracPart (lit : List Char) (cs : List Char) : Option (List Char × List Char) :=
  match cs with
  | '.' :: r =>
    let ds := spanDigits r
    if ds.1 = [] then none else parseExpPart (lit ++ '.' :: ds.1) ds.2
  | _ => parseExpPart lit cs

/-- Parses a JSON number literal (returned as its source text). -/
def parseNumber (cs : List Char) : Option (List Char × List Char) :=
  let neg : List Char × List Char :=
    match cs with
    | '-' :: r => (['-'], r)
    | _ => ([], cs)
  match neg.2 with
  | c :: _ =>
    if c.isDigit then
      let ip := spanDigits neg.2
      if ip.1.length > 1 && ip.1.head? = some '0' then none
      else parseFracPart (neg.1 ++ ip.1) ip.2
    else none
  | [] => none

mutual

def parseValue : Nat → List Char → Option (Json × List Char)
  | 0, _ => none
  | fuel + 1, cs =>
    match skipWs cs with
    | [] => none
    | c :: rest =>
      if c = '"' then
        (parseStringBody (fuel + 1) rest).map (fun p => (Json.str (String.mk p.1), p.2))
      else if c = lbraceC then parseObjTop fuel rest
      else if c = '[' then parseArrTop fuel rest
      else if beginsWith ['t', 'r', 'u', 'e'] (c :: rest) then
        some (Json.boolean true, (c :: rest).drop 4)
      else if beginsWith ['f', 'a', 'l', 's', 'e'] (c :: rest) then
        some (Json.boolean false, (c :: rest).drop 5)
      else if beginsWith ['n', 'u', 'l', 'l'] (c :: rest) then
        some (Json.null, (c :: rest).drop 4)
      else
        (parseNumber (c :: rest)).map (fun p => (Json.num (String.mk p.1), p.2))

def parseObjTop : Nat → List Char → Option (Json × List Char)
  | 0, _ => none
  | fuel + 1, cs =>
    match skipWs cs with
    | [] => none
    | c :: rest =>
      if c = rbraceC then some (Json.obj [], rest)
      else parseMembersLoop fuel (c :: rest) []

def parseMembersLoop : Nat → List Char → List (String × Json) → Option (Json × List Char)
  | 0, _, _ => none
  | fuel + 1, cs, acc =>
    match skipWs cs with
    | '"' :: rest =>
      match parseStringBody (fuel + 1) rest with
      | some (k, r1) =>
        match skipWs r1 with
        | ':' :: r2 =>
          match parseValue fuel r2 with
          | some (v, r3) =>
            let acc2 := acc ++ [(String.mk k, v)]
            match skipWs r3 with
            | ',' :: r4 => parseMembersLoop fuel r4 acc2
            | c :: r4 => if c = rbraceC then some (Json.obj acc2, r4) else none
            | [] => none
          | none => none
        | _ => none
      | none => none
    | _ => none

def parseArrTop : Nat → List Char → Option (Json × List Char)
  | 0, _ => none
  | fuel + 1, cs =>
    match skipWs cs with
    | [] => none
    | c :: rest =>
      if c = ']' then some (Json.arr [], rest)
      else parseElemsLoop fuel (c :: rest) []

def parseElemsLoop : Nat → List Char → List Json → Option (Json × List Char)
  | 0, _, _ => none
  | fuel + 1, cs, acc =>
    match parseValue fuel cs with
    | some (v, r1) =>
      let acc2 := acc ++ [v]
      match skipWs r1 with
      | ',' :: r2 => parseElemsLoop fuel r2 acc2
      | ']' :: r2 => some (Json.arr acc2, r2)
      | _ => none
    | none => none

end

/-- Models `serde_json::from_str::<serde_json::Value>`: parses one JSON value
and requires the rest of the input to be whitespace. -/
def jsonParse (cs : List Char) : Option Json :=
  match parseValue (cs.length + 2) cs with
  | some (v, rest) => if skipWs rest = [] then some v else none
  | none => none

example : jsonParse "42".data = some (Json.num "42") := rfl
example : jsonParse "2024-01-01 00:00:00 ERROR boom".data = none := rfl
example : jsonParse "null".data = some Json.null := rfl

/-! ## Log parser (`LogParser` in `log_streamer.rs`)

Timestamps are modelled symbolically: `Timestamp.now` is the value of
`Utc::now()` at parse time (the default used when no timestamp can be
extracted) and `Timestamp.parsedUtc s` is a timestamp successfully parsed
from the source text `s` and converted to UTC. -/

inductive Timestamp where
  | now
  | parsedUtc (src : String)
deriving DecidableEq

inductive LogLevel where
  | trace
  | debug
  | info
  | warn
  | error
deriving DecidableEq

/-- Models `LogLevel::from_str` in `log_streamer.rs`: uppercase the input and
match it against the known level names, defaulting to `Info`. -/
def LogLevel.fromStr (s : String) : LogLevel :=
  let u := s.data.map Char.toUpper
  if u = ['T', 'R', 'A', 'C', 'E'] then .trace
  else if u = ['D', 'E', 'B', 'U', 'G'] then .debug
  else if u = ['I', 'N', 'F', 'O'] then .info
  else if u = ['W', 'A', 'R', 'N'] then .warn
  else if u = ['W', 'A', 'R', 'N', 'I', 'N', 'G'] then .warn
  else if u = ['E', 'R', 'R', 'O', 'R'] then .error
  else .info

/-- Discriminant of the `LogLevel` enum (`entry.level as u8` in Rust):
declaration order `Trace, Debug, Info, Warn, Error`. -/
def levelU8 : LogLevel → Nat
  | .trace => 0
  | .debug => 1
  | .info => 2
  | .warn => 3
  | .error => 4

structure LogEntry where
  timestamp : Timestamp
  service : String
  level : LogLevel
  message : String
  fields : List (String × Json)
  raw : String

/-! ### The two regex searches of `LogParser`

`level_regex` is `(?i)\b(TRACE|DEBUG|INFO|WARN|WARNING|ERROR)\b` and
`timestamp_regex` is `\d\x7b4\x7d-\d\x7b2\x7d-\d\x7b2\x7d[T ]\d\x7b2\x7d:\d\x7b2\x7d:\d\x7b2\x7d`
(shown with escaped repetition braces).  Both are modelled as leftmost-first
searches over the character list, exactly the semantics of `Regex::find` in
the Rust `regex` crate; `\b` is the usual word boundary with word characters
`[A-Za-z0-9_]` and `\d` is modelled as an ASCII digit. -/

def isWordChar (c : Char) : Bool := c.isAlphanum || c = '_'

def levelKeywords : List (List Char) :=
  [['T', 'R', 'A', 'C', 'E'], ['D', 'E', 'B', 'U', 'G'], ['I', 'N', 'F', 'O'],
   ['W', 'A', 'R', 'N'], ['W', 'A', 'R', 'N', 'I', 'N', 'G'],
   ['E', 'R', 'R', 'O', 'R']]

/-- Case-insensitively matches an uppercase keyword at the start of the input. -/
def ciBegins : List Char → List Char → Bool
  | [], _ => true
  | _ :: _, [] => false
  | k :: ks, c :: cs => k == c.toUpper && ciBegins ks cs

/-- Tries one keyword at the current position, requiring a trailing word
boundary; returns the matched original characters. -/
def kwAt (cs : List Char) (kw : List Char) : Option (List Char) :=
  if ciBegins kw cs then
    match cs.drop kw.length with
    | [] => some (cs.take kw.length)
    | c :: _ => if isWordChar c then none else some (cs.take kw.length)
  else none

def tryKwList : List (List Char) → List Char → Option (List Char)
  | [], _ => none
  | kw :: kws, cs =>
    match kwAt cs kw with
    | some m => some m
    | none => tryKwList kws cs

/-- Leftmost-first search for `level_regex`; the flag records whether the
previous character was a word character (in which case `\b` fails here). -/
def findLevelAux : Bool → List Char → Option (List Char)
  | _, [] => none
  | prevWord, c :: cs =>
    match (if prevWord then none else tryKwList levelKeywords (c :: cs)) with
    | some m => some m
    | none => findLevelAux (isWordChar c) cs

def findLevel (cs : List Char) : Option String :=
  (findLevelAux false cs).map String.mk

def tsShape : List (Char → Bool) :=
  [Char.isDigit, Char.isDigit, Char.isDigit, Char.isDigit, (· = '-'),
   Char.isDigit, Char.isDigit, (· = '-'), Char.isDigit, Char.isDigit,
   (fun c => c = 'T' || c = ' '), Char.isDigit, Char.isDigit, (· = ':'),
   Char.isDigit, Char.isDigit, (· = ':'), Char.isDigit, Char.isDigit]

def matchShape : List (Char → Bool) → List Char → Bool
  | [], _ => true
  | _ :: _, [] => false
  | p :: ps, c :: cs => p c && matchShape ps cs

/-- Leftmost search for `timestamp_regex`, returning the matched text. -/
def findTsAux : List Char → Option (List Char)
  | [] => none
  | c :: cs =>
    if matchShape tsShape (c :: cs) then some ((c :: cs).take tsShape.length)
    else findTsAux cs

def findTimestamp (cs : List Char) : Option String :=
  (findTsAux cs).map String.mk

/-- Models `DateTime::parse_from_rfc3339` composed with `.with_timezone(&Utc)`:
succeeds exactly on RFC3339-shaped input (date, `T`/`t`/space separator, time,
optional fraction, then `Z`/`z` or a `±HH:MM` offset). -/
def rfc3339Parse (s : String) : Option Timestamp :=
  let cs := s.data
  let okDate := matchShape (tsShape.take 10) cs
  let rest0 := cs.drop 10
  let okSep := matchShape [fun c => c = 'T' || c = 't' || c = ' ',
    Char.isDigit, Char.isDigit, (· = ':'), Char.isDigit, Char.isDigit,
    (· = ':'), Char.isDigit, Char.isDigit] rest0
  let rest1 := rest0.drop 9
  let rest2 :=
    match rest1 with
    | '.' :: r => (r.dropWhile Char.isDigit)
    | _ => rest1
  let okOff :=
    match rest2 with
    | ['Z'] => true
    | ['z'] => true
    | [s1, h1, h2, ':', m1, m2] =>
      (s1 = '+' || s1 = '-') && h1.isDigit && h2.isDigit && m1.isDigit && m2.isDigit
    | _ => false
  if okDate && okSep && okOff then some (Timestamp.parsedUtc s) else none

/-- Models `DateTime::parse_from_str(text, "%Y-%m-%d %H:%M:%S")` as used by
`LogParser::parse_text_log`.  In chrono, `DateTime::parse_from_str` must
produce a `DateTime<FixedOffset>`, which requires the format string to carry a
UTC-offset item (`%z`/`%:z`/...); the format `"%Y-%m-%d %H:%M:%S"` contains
none, so chrono returns `Err(ParseError(NotEnough))` for every input and this
call never succeeds. -/
def dtParseYmdHms (_ : String) : Option Timestamp := none

/-- Takes the first key of the list that is present in the object out of the
object, modelling the `obj.remove(k1).or_else(|| obj.remove(k2))...` chains of
`parse_json_log` (when a key is absent, `remove` leaves the object unchanged
and the next key is tried). -/
def removeKey : List (String × Json) → String → Option Json × List (String × Json)
  | [], _ => (none, [])
  | (k, v) :: rest, key =>
    if k = key then (some v, rest)
    else
      let r := removeKey rest key
      (r.1, (k, v) :: r.2)

def removeChain : List (String × Json) → List String → Option Json × List (String × Json)
  | o, [] => (none, o)
  | o, k :: ks =>
    match removeKey o k with
    | (some v, o2) => (some v, o2)
    | (none, _) => removeChain o ks

/-- Models `LogParser::parse_json_log`.  The `raw` argument is the (trimmed)
original line, already known to parse as the JSON value `j`. -/
def parse_json_log (j : Json) (service : String) (raw : List Char) : Option LogEntry :=
  match j.asObj with
  | none => none
  | some o =>
    let ts := removeChain o ["timestamp", "time", "ts"]
    let timestamp := ((ts.1.bind Json.asStr).bind rfc3339Parse).getD Timestamp.now
    let lv := removeChain ts.2 ["level", "severity"]
    let level := ((lv.1.bind Json.asStr).map LogLevel.fromStr).getD LogLevel.info
    let mv := removeChain lv.2 ["message", "msg"]
    let message := (mv.1.bind Json.asStr).getD (String.mk raw)
    some { timestamp := timestamp, service := service, level := level,
           message := message, fields := mv.2, raw := String.mk raw }

/-- Models `LogParser::parse_text_log`. -/
def parse_text_log (line : List Char) (service : String) : Option LogEntry :=
  let timestamp := ((findTimestamp line).bind dtParseYmdHms).getD Timestamp.now
  let level := ((findLevel line).map LogLevel.fromStr).getD LogLevel.info
  some { timestamp := timestamp, service := service, level := level,
         message := String.mk line, fields := [], raw := String.mk line }

/-- Models `LogParser::parse_line`: trim, return `None` on an empty result,
try JSON first, fall back to plain text. -/
def parse_line (line service : String) : Option LogEntry :=
  let t := rsTrim line.data
  if t = [] then none
  else
    match jsonParse t with
    | some j => parse_json_log j service t
    | none => parse_text_log t service

example : parse_line "   " "svc" = none := rfl
example : parse_line "42" "svc" = none := rfl
example : (parse_line "hello" "svc").map (fun e => e.message) = some "hello" := rfl
example :
    (parse_line "2024-01-01 00:00:00 ERROR boom" "svc").map (fun e => (e.level, e.timestamp)) =
      some (LogLevel.error, Timestamp.now) := rfl
example :
    (parse_line "\x7b\"level\":\"warn\",\"message\":\"x\",\"extra\":\"y\"\x7d" "svc").map
        (fun e => (e.level, e.message)) =
      some (LogLevel.warn, "x") := rfl

/-! ## Log watcher (`LogWatcher::watch` in `log_streamer.rs`)

A file is modelled as the list of its newline-terminated lines (each line's
byte size is its character count plus one for the newline, which is what the
watcher's byte position advances over).  One `watchCycle` is one iteration of
the follow-mode loop body: drain all available lines from the current
position (a stale position past the end of file reads nothing, as
`read_line` returns 0 there), then compare the file's reported size with the
position and reset the reader to offset 0 if the file shrank.  File-system
errors are out of scope of this model: `metadata` and `File::open` are taken
to succeed. -/

def lineSize (l : List Char) : Nat := l.length + 1

def fileSize (f : List (List Char)) : Nat := (f.map lineSize).sum

/-- Lines obtained by reading from byte offset `pos` to end of file; an
offset inside a line yields the remaining tail of that line first, and an
offset at or past the end of file yields nothing. -/
def readFrom : List (List Char) → Nat → List (List Char)
  | [], _ => []
  | l :: ls, pos =>
    if pos = 0 then l :: ls
    else if lineSize l ≤ pos then readFrom ls (pos - lineSize l)
    else l.drop pos :: ls

structure WState where
  pos : Nat
  emitted : List (List Char)
deriving DecidableEq

/-- Models the opening of `watch`: in follow mode the reader seeks to the
current end of file, otherwise it starts at offset 0. -/
def watchStart (follow : Bool) (f : List (List Char)) : WState :=
  { pos := if follow then fileSize f else 0, emitted := [] }

/-- One iteration of the follow-mode loop of `LogWatcher::watch` against the
file contents `f` current during that iteration. -/
def watchCycle (f : List (List Char)) (s : WState) : WState :=
  let readLines := readFrom f s.pos
  let pos1 := max s.pos (fileSize f)
  let pos2 := if fileSize f < pos1 then 0 else pos1
  { pos := pos2, emitted := s.emitted ++ readLines }

theorem readFrom_zero (f : List (List Char)) : readFrom f 0 = f := by
  cases f <;> simp [readFrom]

theorem readFrom_past_end (f : List (List Char)) (pos : Nat) (h : fileSize f ≤ pos) :
    readFrom f pos = [] := by
  induction f generalizing pos with
  | nil => simp [readFrom]
  | cons l ls ih =>
    have hsz : lineSize l ≤ pos := by
      have : lineSize l ≤ fileSize (l :: ls) := by
        simp [fileSize, lineSize]
      omega
    have hpos : pos ≠ 0 := by
      have : 1 ≤ lineSize l := by simp [lineSize]
      omega
    have hrest : fileSize ls ≤ pos - lineSize l := by
      have : fileSize (l :: ls) = lineSize l + fileSize ls := by
        simp [fileSize]
      omega
    simp [readFrom, hpos, hsz, ih _ hrest]

/-! ## Log streamer (`LogStreamer` in `log_streamer.rs`)

The pattern filter is a compiled regular expression in the source; it is
modelled as its match function on the message, an opaque `String → Bool`. -/

inductive LogFormat where
  | pretty
  | json
  | raw

structure LogStreamConfig where
  follow : Bool
  lines : Option Nat
  level_filter : Option LogLevel
  service_filter : Option String
  pattern_filter : Option (String → Bool)
  format : LogFormat
  buffer_size : Nat

/-- Models `LogStreamer::should_display`: the two comparisons on `u8`
discriminants, substring containment on the service name, and the regex
match on the message, combined exactly as the early-return chain combines
them. -/
def should_display (e : LogEntry) (c : LogStreamConfig) : Bool :=
  (match c.level_filter with
   | some minLevel => !(levelU8 e.level < levelU8 minLevel)
   | none => true)
  &&
  (match c.service_filter with
   | some s => containsSub e.service.data s.data
   | none => true)
  &&
  (match c.pattern_filter with
   | some p => p e.message
   | none => true)

/-- Models the non-follow branch of `LogStreamer::stream`: collect the
entries that pass the filters in arrival order, then print the last
`lines.unwrap_or(buffer.len())` of them (`saturating_sub` start index). -/
def streamNonFollow (entries : List LogEntry) (c : LogStreamConfig) : List LogEntry :=
  let buffer := entries.filter (fun e => should_display e c)
  let start := buffer.length - (c.lines.getD buffer.length)
  buffer.drop start

/-- Severity order stated by the spec: position at or after `a` in the chain
`Trace < Debug < Info < Warn < Error`. -/
def severityChain : List LogLevel := [.trace, .debug, .info, .warn, .error]

def sevLe (a b : LogLevel) : Bool :=
  (severityChain.dropWhile (fun x => x ≠ a)).contains b

theorem sevLe_iff_levelU8 (a b : LogLevel) : sevLe a b = true ↔ levelU8 a ≤ levelU8 b := by
  cases a <;> cases b <;> decide

/-! ## Process supervisor (`ProcessManager` in `process_manager.rs`)

The registry `Arc<Mutex<HashMap<String, ServiceProcess>>>` is modelled as an
association list; each public method becomes a function from the registry (and
the outcomes of the external effects it performs) to the updated registry and
its result.  A child handle (`std::process::Child`) is an opaque `Nat` id.
`startService` additionally reports how many child processes the call spawned,
and `stopService` reports the ordered trace of state changes and signals it
performed, so ordering claims can be stated. -/

inductive RestartPolicy where
  | never
  | onFailure
  | always
  | unlessStopped
deriving DecidableEq

inductive ProcessState where
  | starting
  | running
  | stopping
  | stopped
  | failed (reason : String)
  | restarting
deriving DecidableEq

inductive PMHealthStatus where
  | unknown
  | healthy
  | unhealthy (reason : String)
deriving DecidableEq

structure ProcessConfig where
  name : String
  command : String
  args : List String
  workingDir : String
  env : List (String × String)
  healthCheckUrl : Option String
  healthCheckIntervalMs : Nat
  startupTimeoutMs : Nat
  restartPolicy : RestartPolicy
  logFile : Option String
deriving DecidableEq

structure ServiceProcess where
  config : ProcessConfig
  state : ProcessState
  process : Option Nat
  startedAt : Option Nat
  restart_count : Nat
  lastHealthCheck : Option Nat
  healthStatus : PMHealthStatus
deriving DecidableEq

abbrev Registry := List (String × ServiceProcess)

/-- Models `ProcessManager::start_service`.  `spawnResult` is the outcome of
`self.spawn_process(&process_config)` (the only external effect on this path)
and `now` the value of `Instant::now()`.  The third component of the result
counts the child processes spawned by this call. -/
def startService (reg : Registry) (cfg : ProcessConfig) (spawnResult : Except String Nat)
    (now : Nat) : Except String Unit × Registry × Nat :=
  match alistLookup reg cfg.name with
  | some sv =>
    if sv.state = ProcessState.running then (Except.ok (), reg, 0)
    else startServiceSpawn reg cfg spawnResult now
  | none => startServiceSpawn reg cfg spawnResult now
where
  startServiceSpawn (reg : Registry) (cfg : ProcessConfig)
      (spawnResult : Except String Nat) (now : Nat) :
      Except String Unit × Registry × Nat :=
    let base : ServiceProcess :=
      { config := cfg, state := ProcessState.starting, process := none,
        startedAt := none, restart_count := 0, lastHealthCheck := none,
        healthStatus := PMHealthStatus.unknown }
    match spawnResult with
    | Except.ok child =>
      let sv := { base with
                  process := some child
                  state := ProcessState.running
                  startedAt := some now }
      (Except.ok (), alistInsert reg cfg.name sv, 1)
    | Except.error e =>
      (Except.error e, alistInsert reg cfg.name { base with state := ProcessState.failed e }, 0)

instance {e a : Type} [DecidableEq e] [DecidableEq a] : DecidableEq (Except e a) := fun x y =>
  match x, y with
  | Except.ok v, Except.ok w =>
    if h : v = w then isTrue (by rw [h]) else isFalse (by simp [h])
  | Except.error v, Except.error w =>
    if h : v = w then isTrue (by rw [h]) else isFalse (by simp [h])
  | Except.ok _, Except.error _ => isFalse (by simp)
  | Except.error _, Except.ok _ => isFalse (by simp)

inductive StopEvent where
  | setState (s : ProcessState)
  | sigterm
  | sigkill
deriving DecidableEq

/-- Environment outcomes consumed by `stop_service`: the result of
`process.kill()` (used both for a forced kill and for the escalation after
the grace period) and the result of `process.try_wait()` after the 5-second
graceful wait (`some` when the process has exited). -/
structure StopEnv where
  killResult : Except String Unit
  tryWaitResult : Except String (Option Unit)
deriving DecidableEq

/-- Models `ProcessManager::stop_service`.  Mutations made through `get_mut`
before an early `?` return persist in the registry, exactly as in the source;
the third component is the ordered trace of state updates and signals. -/
def stopService (reg : Registry) (name : String) (force : Bool) (env : StopEnv) :
    Except String Unit × Registry × List StopEvent :=
  match alistLookup reg name with
  | none => (Except.ok (), reg, [])
  | some sv =>
    if sv.state = ProcessState.stopped then (Except.ok (), reg, [])
    else
      let sv1 := { sv with state := ProcessState.stopping }
      let evs0 := [StopEvent.setState ProcessState.stopping]
      match sv.process with
      | none => (Except.ok (), alistInsert reg name sv1, evs0)
      | some _ =>
        let sv2 := { sv1 with process := none }
        if force then
          match env.killResult with
          | Except.ok _ =>
            (Except.ok (), alistInsert reg name { sv2 with state := ProcessState.stopped },
             evs0 ++ [StopEvent.sigkill, StopEvent.setState ProcessState.stopped])
          | Except.error e =>
            (Except.error e, alistInsert reg name sv2, evs0 ++ [StopEvent.sigkill])
        else
          let evs1 := evs0 ++ [StopEvent.sigterm]
          match env.tryWaitResult with
          | Except.error e => (Except.error e, alistInsert reg name sv2, evs1)
          | Except.ok (some _) =>
            (Except.ok (), alistInsert reg name { sv2 with state := ProcessState.stopped },
             evs1 ++ [StopEvent.setState ProcessState.stopped])
          | Except.ok none =>
            match env.killResult with
            | Except.ok _ =>
              (Except.ok (), alistInsert reg name { sv2 with state := ProcessState.stopped },
               evs1 ++ [StopEvent.sigkill, StopEvent.setState ProcessState.stopped])
            | Except.error e =>
              (Except.error e, alistInsert reg name sv2, evs1 ++ [StopEvent.sigkill])

/-- Models `ProcessManager::restart_service`: look up the stored config, stop
gracefully, settle, start with the stored config, then increment the restart
counter of whatever record the name now maps to. -/
def restartService (reg : Registry) (name : String) (spawnResult : Except String Nat)
    (now : Nat) (env : StopEnv) : Except String Unit × Registry × Nat :=
  match (alistLookup reg name).map (fun sv => sv.config) with
  | none => (Except.error ("Service " ++ name ++ " not found"), reg, 0)
  | some cfg =>
    match stopService reg name false env with
    | (Except.error e, reg1, _) => (Except.error e, reg1, 0)
    | (Except.ok _, reg1, _) =>
      match startService reg1 cfg spawnResult now with
      | (Except.error e, reg2, n) => (Except.error e, reg2, n)
      | (Except.ok _, reg2, n) =>
        match alistLookup reg2 name with
        | some sv =>
          (Except.ok (), alistInsert reg2 name { sv with restart_count := sv.restart_count + 1 }, n)
        | none => (Except.ok (), reg2, n)

/-- Outcome of the HTTP GET performed by a health probe (`ureq::get(url)
.timeout(..).call()`): a response delivered as `Ok` (ureq returns `Ok` only
for statuses below 400), a 4xx/5xx response delivered as
`Err(ureq::Error::Status(code, _))`, or a transport/timeout error. -/
inductive UreqResult where
  | okResp (status : Nat)
  | errStatus (code : Nat)
  | errTransport (msg : String)
deriving DecidableEq

/-- Models `ProcessManager::check_health`: `Ok` exactly on a 2xx response. -/
def check_health (resp : UreqResult) : Except String Unit :=
  match resp with
  | UreqResult.okResp s =>
    if 200 ≤ s ∧ s < 300 then Except.ok ()
    else Except.error ("Health check failed with status: " ++ toString s)
  | UreqResult.errStatus c =>
    Except.error ("Health check failed: status code " ++ toString c)
  | UreqResult.errTransport e => Except.error ("Health check failed: " ++ e)

structure HealthIterOut where
  sleptMs : Nat
  looping : Bool
  services : Registry
deriving DecidableEq

/-- Models one iteration of the background loop spawned by
`ProcessManager::start_health_monitoring` for service `name`: the iteration
begins with `thread::sleep(Duration::from_secs(10))` — a fixed ten seconds,
recorded in `sleptMs` — then re-checks that the service is still `Running`
and health-checked (else the loop breaks), performs the probe whose outcome
is `probe`, stores the health status and check time, and marks the service
`Restarting` when it is unhealthy under policy `OnFailure` or `Always`. -/
def healthMonitorIteration (reg : Registry) (name : String) (probe : UreqResult)
    (now : Nat) : HealthIterOut :=
  let sleptMs := 10000
  let shouldCheck :=
    match alistLookup reg name with
    | some sv => sv.state = ProcessState.running && sv.config.healthCheckUrl.isSome
    | none => false
  if !shouldCheck then { sleptMs := sleptMs, looping := false, services := reg }
  else
    match alistLookup reg name with
    | none => { sleptMs := sleptMs, looping := false, services := reg }
    | some sv =>
      let healthStatus :=
        match sv.config.healthCheckUrl with
        | some _ =>
          match check_health probe with
          | Except.ok _ => PMHealthStatus.healthy
          | Except.error e => PMHealthStatus.unhealthy e
        | none => PMHealthStatus.unknown
      let sv1 := { sv with healthStatus := healthStatus, lastHealthCheck := some now }
      let sv2 :=
        match healthStatus with
        | PMHealthStatus.unhealthy _ =>
          if sv.config.restartPolicy = RestartPolicy.onFailure ∨
              sv.config.restartPolicy = RestartPolicy.always then
            { sv1 with state := ProcessState.restarting }
          else sv1
        | _ => sv1
      { sleptMs := sleptMs, looping := true, services := alistInsert reg name sv2 }

/-! ## Standalone health monitor (`health_monitor.rs`)

Placed in its own namespace because the source file defines its own,
slightly different, `HealthStatus` enumeration. -/

namespace HMon

inductive HealthStatus where
  | unknown
  | healthy
  | degraded (reason : String)
  | unhealthy (reason : String)
deriving DecidableEq

/-- Variant-level view of `HealthStatus`, forgetting the reason strings. -/
inductive HKind where
  | unknown
  | healthy
  | degraded
  | unhealthy
deriving DecidableEq

def kindOf : HealthStatus → HKind
  | HealthStatus.unknown => HKind.unknown
  | HealthStatus.healthy => HKind.healthy
  | HealthStatus.degraded _ => HKind.degraded
  | HealthStatus.unhealthy _ => HKind.unhealthy

structure HealthCheck where
  endpoint : String
  intervalMs : Nat
  timeoutMs : Nat
  retries : Nat
deriving DecidableEq

structure ServiceHealth where
  name : String
  status : HealthStatus
  lastCheck : Option Nat
  consecutiveFailures : Nat
  uptimeMs : Option Nat
  responseTimeMs : Option Nat
deriving DecidableEq

structure HealthMonitor where
  checks : List (String × HealthCheck)
  results : List (String × ServiceHealth)
deriving DecidableEq

/-- Models `HealthMonitor::add_check`. -/
def add_check (m : HealthMonitor) (name : String) (check : HealthCheck) : HealthMonitor :=
  { checks := alistInsert m.checks name check,
    results := alistInsert m.results name
      { name := name, status := HealthStatus.unknown, lastCheck := none,
        consecutiveFailures := 0, uptimeMs := none, responseTimeMs := none } }

/-- Models `HealthMonitor::check_endpoint`: every probe outcome is classified
into a status and returned as `Ok`; this function has no `Err` path. -/
def check_endpoint (_check : HealthCheck) (resp : UreqResult) : Except String HealthStatus :=
  match resp with
  | UreqResult.okResp status =>
    if 200 ≤ status ∧ status < 300 then Except.ok HealthStatus.healthy
    else if 500 ≤ status then
      Except.ok (HealthStatus.unhealthy ("Server error: " ++ toString status))
    else Except.ok (HealthStatus.degraded ("Status: " ++ toString status))
  | UreqResult.errStatus code =>
    if 500 ≤ code then Except.ok (HealthStatus.unhealthy ("Server error: " ++ toString code))
    else Except.ok (HealthStatus.degraded ("Status: " ++ toString code))
  | UreqResult.errTransport e =>
    Except.ok (HealthStatus.unhealthy ("Connection error: " ++ e))

/-- Models `HealthMonitor::perform_check`.  `resp` is the outcome of the HTTP
GET, `now` the value of `Instant::now()` when the result is stored and
`elapsedMs` the measured `start.elapsed()` latency. -/
def perform_check (m : HealthMonitor) (name : String) (resp : UreqResult)
    (now elapsedMs : Nat) : Except String HealthStatus × HealthMonitor :=
  match alistLookup m.checks name with
  | none => (Except.error ("Health check " ++ name ++ " not found"), m)
  | some check =>
    match check_endpoint check resp with
    | Except.error e => (Except.error e, m)
    | Except.ok status =>
      let results :=
        match alistLookup m.results name with
        | none => m.results
        | some h =>
          let h1 := { h with
                      status := status
                      lastCheck := some now
                      responseTimeMs := some elapsedMs }
          let h2 :=
            match status with
            | HealthStatus.healthy =>
              { h1 with
                consecutiveFailures := 0
                uptimeMs := if h1.uptimeMs = none then some 0 else h1.uptimeMs }
            | HealthStatus.unhealthy _ =>
              { h1 with consecutiveFailures := h1.consecutiveFailures + 1 }
            | HealthStatus.degraded _ =>
              { h1 with consecutiveFailures := h1.consecutiveFailures + 1 }
            | HealthStatus.unknown => h1
          alistInsert m.results name h2
      (Except.ok status, { m with results := results })

/-- Recursion underlying `check_all`: run `perform_check` for each collected
name in order, inserting each `Ok` status into the accumulated result map. -/
def checkAllGo (resps : String → UreqResult) (now elapsedMs : Nat) :
    List String → HealthMonitor → List (String × HealthStatus) →
    List (String × HealthStatus) × HealthMonitor
  | [], m, acc => (acc, m)
  | n :: ns, m, acc =>
    match perform_check m n (resps n) now elapsedMs with
    | (Except.ok st, m1) => checkAllGo resps now elapsedMs ns m1 (alistInsert acc n st)
    | (Except.error _, m1) => checkAllGo resps now elapsedMs ns m1 acc

/-- Models `HealthMonitor::check_all`: iterate over the registered check
names; individual failures do not abort the batch.  `resps` assigns each
name the outcome of its probe. -/
def check_all (m : HealthMonitor) (resps : String → UreqResult) (now elapsedMs : Nat) :
    List (String × HealthStatus) × HealthMonitor :=
  checkAllGo resps now elapsedMs (m.checks.map (fun p => p.1)) m []

theorem check_endpoint_never_errs (check : HealthCheck) (resp : UreqResult) :
    ∃ st, check_endpoint check resp = Except.ok st := by
  cases resp with
  | okResp s =>
    by_cases h1 : 200 ≤ s ∧ s < 300
    · simp [check_endpoint, h1]
    · by_cases h2 : 500 ≤ s <;> simp [check_endpoint, h1, h2]
  | errStatus c => by_cases h2 : 500 ≤ c <;> simp [check_endpoint, h2]
  | errTransport e => simp [check_endpoint]

theorem perform_check_preserves_checks (m : HealthMonitor) (name : String)
    (resp : UreqResult) (now elapsedMs : Nat) :
    (perform_check m name resp now elapsedMs).2.checks = m.checks := by
  unfold perform_check
  cases h : alistLookup m.checks name with
  | none => simp
  | some check =>
    obtain ⟨st, hst⟩ := check_endpoint_never_errs check resp
    simp [hst]

end HMon

/-! ## Shared concrete fixtures used by witnesses and counterexamples -/

def cfgW1 : ProcessConfig :=
  { name := "api", command := "run", args := [], workingDir := ".", env := [],
    healthCheckUrl := none, healthCheckIntervalMs := 10000, startupTimeoutMs := 30000,
    restartPolicy := RestartPolicy.never, logFile := none }

def svW1 : ServiceProcess :=
  { config := cfgW1, state := ProcessState.running, process := some 7, startedAt := some 3,
    restart_count := 2, lastHealthCheck := none, healthStatus := PMHealthStatus.healthy }

def envGraceful : StopEnv :=
  { killResult := Except.ok (), tryWaitResult := Except.ok (some ()) }

/-! ## C1 — start on an already-running service -/

/-- C1: if the registry already contains a record for `cfg.name` whose state is
`Running`, then `start_service` returns success, spawns no child process, and
leaves the whole registry — in particular that service's record with its child
handle, state, start timestamp, restart counter and health status — unchanged. -/
theorem start_running_is_noop (reg : Registry) (cfg : ProcessConfig)
    (spawnResult : Except String Nat) (now : Nat) (sv : ServiceProcess)
    (hs : alistLookup reg cfg.name = some sv) (hrun : sv.state = ProcessState.running) :
    startService reg cfg spawnResult now = (Except.ok (), reg, 0) := by
  unfold startService
  rw [hs]
  simp [hrun]

theorem start_running_is_noop_witness :
    startService [("api", svW1)] cfgW1 (Except.ok 99) 5 = (Except.ok (), [("api", svW1)], 0) :=
  start_running_is_noop _ cfgW1 _ _ svW1 (by decide) (by decide)

/-! ## C2 — the restart counter is reset by start_service -/

def regAfterStart : Registry := (startService [] cfgW1 (Except.ok 1) 0).2.1

def regAfterRestart1 : Registry :=
  (restartService regAfterStart "api" (Except.ok 2) 10 envGraceful).2.1

def regAfterRestart2 : Registry :=
  (restartService regAfterRestart1 "api" (Except.ok 3) 20 envGraceful).2.1

/-- C2: evaluation of the failing scenario.  A service is started once and
then restarted twice; both restart calls succeed, yet the restart counter
afterwards is 1, not 2: `start_service` inserts a fresh record with
`restart_count: 0`, so the increment in `restart_service` is applied to a
counter that was just reset instead of being carried forward. -/
theorem restart_counter_not_carried :
    (restartService regAfterStart "api" (Except.ok 2) 10 envGraceful).1 = Except.ok ()
    ∧ (restartService regAfterRestart1 "api" (Except.ok 3) 20 envGraceful).1 = Except.ok ()
    ∧ (alistLookup regAfterRestart2 "api").map (fun sv => sv.restart_count) = some 1 := by
  decide

/-! ## C3 — stop without a child handle stays in Stopping -/

def svFailedNoHandle : ServiceProcess :=
  { config := cfgW1, state := ProcessState.failed "spawn failed", process := none,
    startedAt := none, restart_count := 0, lastHealthCheck := none,
    healthStatus := PMHealthStatus.unknown }

/-- C3 counterexample: a registered record whose state is not `Stopped` but
which holds no child-process handle (here, a `Failed` record left by an
unsuccessful spawn).  `stop_service` returns success, yet the final state is
`Stopping`, not `Stopped`: the `state = Stopped` assignment only happens
inside the `if let Some(process) = service.process.take()` block. -/
theorem stop_without_handle_counterexample :
    (stopService [("api", svFailedNoHandle)] "api" false envGraceful).1 = Except.ok ()
    ∧ (alistLookup (stopService [("api", svFailedNoHandle)] "api" false envGraceful).2.1
        "api").map (fun sv => sv.state) = some ProcessState.stopping
    ∧ ProcessState.stopping ≠ ProcessState.stopped := by
  decide

/-- C3 (amended): for a registered service whose state is not `Stopped`,
`stop_service` sets the state to `Stopping` before any signal is sent (the
first event of the trace is the `Stopping` state update); when the call
returns success the final state is `Stopped` whenever a child-process handle
was present (on the force path and on both graceful sub-paths), while with no
handle present the call succeeds but leaves the state at `Stopping`. -/
theorem stop_stopping_then_stopped (reg : Registry) (name : String) (force : Bool)
    (env : StopEnv) (sv : ServiceProcess)
    (hs : alistLookup reg name = some sv) (hns : sv.state ≠ ProcessState.stopped) :
    ((stopService reg name force env).2.2).head? =
        some (StopEvent.setState ProcessState.stopping)
    ∧ ((stopService reg name force env).1 = Except.ok () →
        (alistLookup (stopService reg name force env).2.1 name).map (fun s => s.state) =
          some (if sv.process.isSome then ProcessState.stopped else ProcessState.stopping)) := by
  unfold stopService
  rw [hs]
  cases hp : sv.process with
  | none => simp [hns, hp, alistLookup_insert]
  | some c =>
    cases force with
    | true =>
      cases hk : env.killResult with
      | ok u => simp [hns, hp, hk, alistLookup_insert]
      | error e => simp [hns, hp, hk, alistLookup_insert]
    | false =>
      cases htw : env.tryWaitResult with
      | error e => simp [hns, hp, htw, alistLookup_insert]
      | ok o =>
        cases o with
        | some u => simp [hns, hp, htw, alistLookup_insert]
        | none =>
          cases hk : env.killResult with
          | ok u => simp [hns, hp, htw, hk, alistLookup_insert]
          | error e => simp [hns, hp, htw, hk, alistLookup_insert]

theorem stop_stopping_then_stopped_witness :
    ((stopService [("api", svW1)] "api" false envGraceful).2.2).head? =
        some (StopEvent.setState ProcessState.stopping)
    ∧ ((stopService [("api", svW1)] "api" false envGraceful).1 = Except.ok () →
        (alistLookup (stopService [("api", svW1)] "api" false envGraceful).2.1 "api").map
          (fun s => s.state) =
          some (if svW1.process.isSome then ProcessState.stopped else ProcessState.stopping)) :=
  stop_stopping_then_stopped _ _ _ _ svW1 (by decide) (by decide)

/-! ## C9 — the health-polling loop sleeps a fixed 10 seconds -/

def svRunningWithUrl : ServiceProcess :=
  { config := { cfgW1 with
                healthCheckUrl := some "http://localhost:1234/health"
                healthCheckIntervalMs := 5000 }
    state := ProcessState.running, process := some 7, startedAt := some 3,
    restart_count := 0, lastHealthCheck := none, healthStatus := PMHealthStatus.unknown }

/-- C9 counterexample: a supervised running service whose configured
`health_check_interval` is 5 seconds, yet the polling-loop iteration sleeps
10 seconds — the loop body executes `thread::sleep(Duration::from_secs(10))`
and never reads `ProcessConfig.health_check_interval`. -/
theorem health_sleep_ignores_interval :
    (alistLookup [("api", svRunningWithUrl)] "api").map
        (fun sv => sv.config.healthCheckIntervalMs) = some 5000
    ∧ (healthMonitorIteration [("api", svRunningWithUrl)] "api"
        (UreqResult.okResp 200) 0).sleptMs ≠ 5000 := by
  decide

/-- C9 (amended): every iteration of the background health-polling loop waits
a fixed 10 seconds, regardless of the service's configured
`health_check_interval`. -/
theorem health_sleep_fixed_ten_seconds (reg : Registry) (name : String)
    (probe : UreqResult) (now : Nat) :
    (healthMonitorIteration reg name probe now).sleptMs = 10000 := by
  unfold healthMonitorIteration
  cases h : alistLookup reg name with
  | none => simp
  | some sv =>
    by_cases hs : sv.state = ProcessState.running && sv.config.healthCheckUrl.isSome
    · simp [h, hs]
    · simp [h, hs]

/-! ## C6 — the follow-mode watcher survives truncation -/

/-- C6: a follow-mode watcher that starts on an empty log, reads the N lines
of `A` in one cycle, and then — after the file is truncated and replaced by
the M lines of `B`, with the reported size smaller than the read position —
runs two more cycles, emits exactly the lines of `A` followed by the lines of
`B`: no line duplicated, no line skipped.  (The middle cycle reads nothing
from the stale offset and resets the position to zero; the model treats the
file-system calls as succeeding, matching the claim's no-error outcome.) -/
theorem watcher_truncation_exact (A B : List (List Char)) (h : fileSize B < fileSize A) :
    (watchCycle B (watchCycle B (watchCycle A (watchStart true [])))).emitted = A ++ B := by
  have h0 : watchStart true ([] : List (List Char)) = { pos := 0, emitted := [] } := by
    simp [watchStart, fileSize]
  have h1 : watchCycle A { pos := 0, emitted := [] } =
      { pos := fileSize A, emitted := A } := by
    simp [watchCycle, readFrom_zero]
  have h2 : watchCycle B { pos := fileSize A, emitted := A } = { pos := 0, emitted := A } := by
    simp [watchCycle, readFrom_past_end B (fileSize A) (Nat.le_of_lt h),
      Nat.max_eq_left (Nat.le_of_lt h), h]
  have h3 : watchCycle B { pos := 0, emitted := A } =
      { pos := fileSize B, emitted := A ++ B } := by
    simp [watchCycle, readFrom_zero]
  rw [h0, h1, h2, h3]

theorem watcher_truncation_exact_witness :
    fileSize [['c']] < fileSize [['a'], ['b']]
    ∧ (watchCycle [['c']] (watchCycle [['c']] (watchCycle [['a'], ['b']]
        (watchStart true [])))).emitted = [['a'], ['b']] ++ [['c']] :=
  ⟨by decide, watcher_truncation_exact [['a'], ['b']] [['c']] (by decide)⟩

/-! ## C7 — streamer filter semantics and tail selection -/

/-- C7: an entry is displayed iff every configured filter passes: its level is
at least the minimum level under the ordering `Trace<Debug<Info<Warn<Error`
(stated via `sevLe`, the position order of the spec's severity chain), the
service filter is a substring of the entry's service name, and the pattern
matches the message — a logical AND.  In non-follow mode with `lines = some n`
the stream prints exactly the last `n` of the filtered entries, in arrival
order (the `take n` of the reversed filtered list, reversed back). -/
theorem streamer_filters_and_tail (entries : List LogEntry) (c : LogStreamConfig)
    (n : Nat) (e : LogEntry) (hn : c.lines = some n) :
    (should_display e c = true ↔
      ((∀ m, c.level_filter = some m → sevLe m e.level = true)
       ∧ (∀ s, c.service_filter = some s →
           ∃ pre post, e.service.data = pre ++ s.data ++ post)
       ∧ (∀ p, c.pattern_filter = some p → p e.message = true)))
    ∧ streamNonFollow entries c =
        ((entries.filter (fun x => should_display x c)).reverse.take n).reverse := by
  constructor
  · unfold should_display
    cases hl : c.level_filter <;> cases hs : c.service_filter <;>
      cases hp : c.pattern_filter <;>
      simp [sevLe_iff_levelU8, containsSub_iff, Nat.not_lt, and_assoc]
  · simp only [streamNonFollow, hn, Option.getD_some]
    exact List.rtake_eq_reverse_take_reverse _ n

def cfgStreamW : LogStreamConfig :=
  { follow := false, lines := some 2, level_filter := some LogLevel.warn,
    service_filter := none, pattern_filter := none, format := LogFormat.pretty,
    buffer_size := 8192 }

def entryW : LogEntry :=
  { timestamp := Timestamp.now, service := "api", level := LogLevel.error,
    message := "boom", fields := [], raw := "boom" }

theorem streamer_filters_and_tail_witness :
    (should_display entryW cfgStreamW = true ↔
      ((∀ m, cfgStreamW.level_filter = some m → sevLe m entryW.level = true)
       ∧ (∀ s, cfgStreamW.service_filter = some s →
           ∃ pre post, entryW.service.data = pre ++ s.data ++ post)
       ∧ (∀ p, cfgStreamW.pattern_filter = some p → p entryW.message = true)))
    ∧ streamNonFollow [entryW] cfgStreamW =
        (([entryW].filter (fun x => should_display x cfgStreamW)).reverse.take 2).reverse :=
  streamer_filters_and_tail [entryW] cfgStreamW 2 entryW (by rfl)


/-! ## C8 — classification and bookkeeping of one health check -/

/-- Status classification exactly as the claim states it: a 2xx status is
Healthy, a status of 500 or above is Unhealthy, any other status is Degraded,
and a connection/timeout error is Unhealthy. -/
def classifyKind (resp : UreqResult) : HMon.HKind :=
  match resp with
  | UreqResult.okResp s => classifyCode s
  | UreqResult.errStatus s => classifyCode s
  | UreqResult.errTransport _ => HMon.HKind.unhealthy
where
  classifyCode (s : Nat) : HMon.HKind :=
    if 200 ≤ s ∧ s < 300 then HMon.HKind.healthy
    else if 500 ≤ s then HMon.HKind.unhealthy
    else HMon.HKind.degraded

/-- C8: for a registered check (with its stored result record),
`perform_check` returns `Ok` with the status the claim's classification
assigns to the probe's outcome, and the stored record afterwards carries the
check time, the measured latency, and a consecutive-failure counter that is
reset to 0 on Healthy and incremented on Degraded or Unhealthy.  The
hypothesis on `errStatus` reflects that `ureq` only delivers statuses ≥ 400
through `Error::Status`. -/
theorem health_check_classification (m : HMon.HealthMonitor) (name : String)
    (check : HMon.HealthCheck) (r : HMon.ServiceHealth) (resp : UreqResult) (now el : Nat)
    (hc : alistLookup m.checks name = some check)
    (hr : alistLookup m.results name = some r)
    (hureq : ∀ code, resp = UreqResult.errStatus code → 400 ≤ code) :
    ∃ st m2, HMon.perform_check m name resp now el = (Except.ok st, m2)
      ∧ HMon.kindOf st = classifyKind resp
      ∧ ∃ r2, alistLookup m2.results name = some r2
          ∧ r2.lastCheck = some now
          ∧ r2.responseTimeMs = some el
          ∧ r2.consecutiveFailures =
              (if classifyKind resp = HMon.HKind.healthy then 0
               else r.consecutiveFailures + 1) := by
  unfold HMon.perform_check
  rw [hc]
  cases resp with
  | okResp s =>
    by_cases h1 : 200 ≤ s ∧ s < 300
    · simp [HMon.check_endpoint, h1, hr, HMon.kindOf, classifyKind,
        classifyKind.classifyCode]
      refine ⟨_, _, ⟨rfl, rfl⟩, rfl, ?_⟩
      simp [alistLookup_insert]
    · by_cases h2 : 500 ≤ s
      · simp [HMon.check_endpoint, h1, h2, hr, HMon.kindOf, classifyKind,
          classifyKind.classifyCode]
        refine ⟨_, _, ⟨rfl, rfl⟩, rfl, ?_⟩
        simp [alistLookup_insert]
      · simp [HMon.check_endpoint, h1, h2, hr, HMon.kindOf, classifyKind,
          classifyKind.classifyCode]
        refine ⟨_, _, ⟨rfl, rfl⟩, rfl, ?_⟩
        simp [alistLookup_insert]
  | errStatus code =>
    have h400 : 400 ≤ code := hureq code rfl
    have h1 : ¬ (200 ≤ code ∧ code < 300) := by omega
    by_cases h2 : 500 ≤ code
    · simp [HMon.check_endpoint, h1, h2, hr, HMon.kindOf, classifyKind,
        classifyKind.classifyCode]
      refine ⟨_, _, ⟨rfl, rfl⟩, rfl, ?_⟩
      simp [alistLookup_insert]
    · simp [HMon.check_endpoint, h1, h2, hr, HMon.kindOf, classifyKind,
        classifyKind.classifyCode]
      refine ⟨_, _, ⟨rfl, rfl⟩, rfl, ?_⟩
      simp [alistLookup_insert]
  | errTransport msg =>
    simp [HMon.check_endpoint, hr, HMon.kindOf, classifyKind]
    refine ⟨_, _, ⟨rfl, rfl⟩, rfl, ?_⟩
    simp [alistLookup_insert]

def checkW : HMon.HealthCheck :=
  { endpoint := "http://localhost:1234/health", intervalMs := 10000,
    timeoutMs := 5000, retries := 3 }

def monW : HMon.HealthMonitor := HMon.add_check { checks := [], results := [] } "api" checkW

def rW : HMon.ServiceHealth :=
  { name := "api", status := HMon.HealthStatus.unknown, lastCheck := none,
    consecutiveFailures := 0, uptimeMs := none, responseTimeMs := none }

theorem health_check_classification_witness :
    ∃ st m2, HMon.perform_check monW "api" (UreqResult.okResp 200) 5 7 = (Except.ok st, m2)
      ∧ HMon.kindOf st = classifyKind (UreqResult.okResp 200)
      ∧ ∃ r2, alistLookup m2.results "api" = some r2
          ∧ r2.lastCheck = some 5
          ∧ r2.responseTimeMs = some 7
          ∧ r2.consecutiveFailures =
              (if classifyKind (UreqResult.okResp 200) = HMon.HKind.healthy then 0
               else rW.consecutiveFailures + 1) :=
  health_check_classification monW "api" checkW rW (UreqResult.okResp 200) 5 7
    (by decide) (by decide) (fun code hcode => by simp at hcode)

/-! ## C10 — perform_check errors only for unregistered names -/

def exceptIsOk {e a : Type} : Except e a → Bool
  | Except.ok _ => true
  | Except.error _ => false

theorem perform_check_isOk (m : HMon.HealthMonitor) (name : String) (resp : UreqResult)
    (now el : Nat) :
    exceptIsOk (HMon.perform_check m name resp now el).1 = (alistLookup m.checks name).isSome := by
  unfold HMon.perform_check
  cases h : alistLookup m.checks name with
  | none => simp [exceptIsOk]
  | some check =>
    obtain ⟨st, hst⟩ := HMon.check_endpoint_never_errs check resp
    simp [hst, exceptIsOk]

theorem alistLookup_isSome_mem_keys {α : Type} (l : List (String × α)) (k : String)
    (h : (alistLookup l k).isSome = true) : k ∈ l.map (fun p => p.1) := by
  induction l with
  | nil => simp [alistLookup] at h
  | cons hd tl ih =>
    obtain ⟨hk, hv⟩ := hd
    by_cases heq : hk = k
    · simp [heq]
    · have h2 : alistLookup ((hk, hv) :: tl) k = alistLookup tl k := by
        simp [alistLookup, heq]
      rw [h2] at h
      simp [ih h, heq]

theorem checkAllGo_covers (resps : String → UreqResult) (now el : Nat) (ns : List String)
    (m : HMon.HealthMonitor) (acc : List (String × HMon.HealthStatus)) (n : String)
    (hmem : (n ∈ ns ∧ (alistLookup m.checks n).isSome = true)
      ∨ (alistLookup acc n).isSome = true) :
    (alistLookup (HMon.checkAllGo resps now el ns m acc).1 n).isSome = true := by
  induction ns generalizing m acc with
  | nil =>
    rcases hmem with ⟨hin, _⟩ | hacc
    · simp at hin
    · simpa [HMon.checkAllGo] using hacc
  | cons x xs ih =>
    have hchk := HMon.perform_check_preserves_checks m x (resps x) now el
    unfold HMon.checkAllGo
    cases hpc : HMon.perform_check m x (resps x) now el with
    | mk res m1 =>
      rw [hpc] at hchk
      cases res with
      | ok st =>
        simp only
        apply ih m1 (alistInsert acc x st)
        rcases hmem with ⟨hin, hsome⟩ | hacc
        · rcases List.mem_cons.mp hin with heq | hmx
          · subst heq
            right
            simp [alistLookup_insert]
          · exact Or.inl ⟨hmx, by rw [hchk]; exact hsome⟩
        · right
          rw [alistLookup_insert]
          split
          · simp
          · exact hacc
      | error err =>
        simp only
        apply ih m1 acc
        rcases hmem with ⟨hin, hsome⟩ | hacc
        · rcases List.mem_cons.mp hin with heq | hmx
          · subst heq
            exfalso
            have hok := perform_check_isOk m n (resps n) now el
            rw [hpc, hsome] at hok
            simp [exceptIsOk] at hok
          · exact Or.inl ⟨hmx, by rw [hchk]; exact hsome⟩
        · exact Or.inr hacc

/-- C10: `perform_check` succeeds exactly when the name has a registered
check (stated as a Boolean equality between `isOk` and registry membership);
the HTTP probe itself can never produce an `Err` (`check_endpoint` classifies
every status code and every transport error into an `Ok` status); and
consequently `check_all` yields a status entry for every registered check
name. -/
theorem perform_check_error_iff_unregistered (m : HMon.HealthMonitor) (name : String)
    (check : HMon.HealthCheck) (resp : UreqResult) (resps : String → UreqResult)
    (now el : Nat) :
    (exceptIsOk (HMon.perform_check m name resp now el).1 = (alistLookup m.checks name).isSome)
    ∧ (∃ st, HMon.check_endpoint check resp = Except.ok st)
    ∧ (∀ n2, (alistLookup m.checks n2).isSome = true →
        (alistLookup (HMon.check_all m resps now el).1 n2).isSome = true) := by
  refine ⟨perform_check_isOk m name resp now el,
    HMon.check_endpoint_never_errs check resp, ?_⟩
  intro n2 hn2
  apply checkAllGo_covers
  exact Or.inl ⟨alistLookup_isSome_mem_keys m.checks n2 hn2, hn2⟩

theorem perform_check_error_iff_unregistered_witness :
    (alistLookup (HMon.check_all monW (fun _ => UreqResult.errStatus 503) 0 0).1
      "api").isSome = true :=
  (perform_check_error_iff_unregistered monW "api" checkW (UreqResult.okResp 200)
    (fun _ => UreqResult.errStatus 503) 0 0).2.2 "api" (by decide)

/-! ## C4 — when parse_line yields None -/

/-- C4 counterexample: the line `"42"` is neither empty nor whitespace-only
(its trim is `['4', '2']`), yet `parse_line` returns `None`: the line parses
as a JSON value, so `parse_json_log` is entered with an early `return`, and
`as_object_mut()` fails on a non-object value with no fallback to the text
parser. -/
theorem parse_line_json_scalar_counterexample :
    parse_line "42" "svc" = none ∧ rsTrim "42".data = ['4', '2'] :=
  ⟨rfl, by decide⟩

/-- C4 (amended): `parse_line` returns `None` exactly when the trimmed line
is empty (covering empty and whitespace-only input) or the trimmed line
parses as a JSON value that is not a JSON object; every other line yields
`Some` entry and — on the plain-text path — the entry's message and raw text
equal the trimmed line. -/
theorem parse_line_none_characterization (line service : String) :
    (parse_line line service = none ↔
      (rsTrim line.data = []
        ∨ ∃ j, jsonParse (rsTrim line.data) = some j ∧ j.isObj = false))
    ∧ (rsTrim line.data ≠ [] → jsonParse (rsTrim line.data) = none →
        ∃ en, parse_line line service = some en
          ∧ en.message = String.mk (rsTrim line.data)
          ∧ en.raw = String.mk (rsTrim line.data)) := by
  constructor
  · unfold parse_line
    by_cases ht : rsTrim line.data = []
    · simp [ht]
    · rw [if_neg ht]
      cases hj : jsonParse (rsTrim line.data) with
      | none => simp [parse_text_log, hj, ht]
      | some j =>
        cases j with
        | null => simp [parse_json_log, Json.asObj, Json.isObj, ht]
        | boolean b => simp [parse_json_log, Json.asObj, Json.isObj, ht]
        | num lit => simp [parse_json_log, Json.asObj, Json.isObj, ht]
        | str s => simp [parse_json_log, Json.asObj, Json.isObj, ht]
        | arr xs => simp [parse_json_log, Json.asObj, Json.isObj, ht]
        | obj fields => simp [parse_json_log, Json.asObj, Json.isObj, ht]
  · intro ht hj
    simp only [parse_line, if_neg ht, hj, parse_text_log]
    exact ⟨_, rfl, rfl, rfl⟩

theorem parse_line_none_characterization_witness :
    ∃ en, parse_line "hello" "svc" = some en
      ∧ en.message = String.mk (rsTrim "hello".data)
      ∧ en.raw = String.mk (rsTrim "hello".data) :=
  (parse_line_none_characterization "hello" "svc").2 (by decide) rfl

/-! ## C5 — the round-trip test lines -/

/-- C5: evaluation of the two round-trip lines.  The JSON line behaves as
claimed: level `Warn`, message `"x"`, remaining key `extra` preserved as a
field.  On the plain line the level is `Error` and `timestamp_regex` does
find the embedded `2024-01-01 00:00:00` — but the entry's timestamp is the
parse-time `Utc::now()` default, not the embedded date-time:
`DateTime::parse_from_str` with the offset-free format `"%Y-%m-%d %H:%M:%S"`
fails on every input, so the `.ok()` fallback always fires. -/
theorem log_parser_roundtrip_eval :
    (∃ en, parse_line "\x7b\"level\":\"warn\",\"message\":\"x\",\"extra\":\"y\"\x7d" "svc" =
        some en
      ∧ en.level = LogLevel.warn ∧ en.message = "x"
      ∧ en.fields = [("extra", Json.str "y")])
    ∧ (∃ en, parse_line "2024-01-01 00:00:00 ERROR boom" "svc" = some en
      ∧ en.level = LogLevel.error
      ∧ findTimestamp "2024-01-01 00:00:00 ERROR boom".data = some "2024-01-01 00:00:00"
      ∧ en.timestamp = Timestamp.now) :=
  ⟨⟨_, rfl, rfl, rfl, rfl⟩, ⟨_, rfl, rfl, rfl, rfl⟩⟩
